import Mathlib

/-!
Verification of the sales + attendance dashboard API (`src/main.py`).

The development shallowly embeds the program: wall-clock values in the
organization's fixed time zone (Asia/Manila, UTC+08:00, no transitions)
become explicit date-time records; the two pure resolvers
(`shift_start_ph`, `attendance_day_for`) become Lean functions; the SQL
aggregation of `/sales/shift` and the dictionary-folding of
`/attendance/today` become list programs; the FastAPI routing layer
becomes a total `handle` function from requests to responses that also
counts how many store queries would be issued.
-/

namespace Dashboard

/-- A calendar date in the organization's fixed time zone. -/
structure PHDate where
  year : Nat
  month : Nat
  day : Nat
  deriving DecidableEq, Repr

/-- A zone-aware wall-clock instant in the fixed Asia/Manila zone,
given by its local components (second granularity). -/
structure PHDateTime where
  year : Nat
  month : Nat
  day : Nat
  hour : Nat
  minute : Nat
  second : Nat
  deriving DecidableEq, Repr

/-- The calendar-date projection, mirroring Python `dt.date()`. -/
def dateOf (t : PHDateTime) : PHDate :=
  ⟨t.year, t.month, t.day⟩

/-- Seconds elapsed since local midnight; used to compare instants that
share a calendar date. -/
def secondsOfDay (t : PHDateTime) : Nat :=
  t.hour * 3600 + t.minute * 60 + t.second

/-- Components form a valid wall-clock time of day. -/
def validTime (t : PHDateTime) : Prop :=
  t.hour < 24 ∧ t.minute < 60 ∧ t.second < 60

instance (t : PHDateTime) : Decidable (validTime t) := by
  unfold validTime; infer_instance

/-- Gregorian leap-year test, as in Python's `calendar`/`datetime`. -/
def isLeap (y : Nat) : Bool :=
  (y % 4 == 0 && y % 100 != 0) || y % 400 == 0

/-- Number of days in a month of a given year. -/
def daysInMonth (y m : Nat) : Nat :=
  if m = 2 then (if isLeap y then 29 else 28)
  else if m = 4 ∨ m = 6 ∨ m = 9 ∨ m = 11 then 30
  else 31

/-- The previous calendar date, mirroring Python
`date - timedelta(days=1)`. -/
def predDate (d : PHDate) : PHDate :=
  if 1 < d.day then ⟨d.year, d.month, d.day - 1⟩
  else if 1 < d.month then ⟨d.year, d.month - 1, daysInMonth d.year (d.month - 1)⟩
  else ⟨d.year - 1, 12, 31⟩

/-- Lexicographic strict comparison of times of day, mirroring Python's
`datetime.time` ordering. -/
def timeLt (h1 m1 s1 h2 m2 s2 : Nat) : Bool :=
  h1 < h2 || (h1 == h2 && (m1 < m2 || (m1 == m2 && s1 < s2)))

/-- Embedding of `shift_start_ph` (src/main.py lines 38-45): the start of
the 8-hour shift containing the instant, on the same local date. -/
def shift_start_ph (t : PHDateTime) : PHDateTime :=
  if 8 ≤ t.hour ∧ t.hour < 16 then ⟨t.year, t.month, t.day, 8, 0, 0⟩
  else if 16 ≤ t.hour ∧ t.hour < 24 then ⟨t.year, t.month, t.day, 16, 0, 0⟩
  else ⟨t.year, t.month, t.day, 0, 0, 0⟩

/-- Embedding of `attendance_day_for` (src/main.py lines 47-50): the
attendance business day, with a 06:00 cutoff. -/
def attendance_day_for (t : PHDateTime) : PHDate :=
  if timeLt t.hour t.minute t.second 6 0 0 then predDate (dateOf t)
  else dateOf t

/-- A row of the `sales` table: team, category page, monetary amount,
and the event instant (an abstract linear timestamp, order-isomorphic
to the `timestamptz` column under the fixed-zone conversion). -/
structure SalesRow where
  team : String
  page : String
  amount : ℚ
  ts : ℤ
  deriving DecidableEq, Repr

/-- Descending-by-total order on aggregated `(page, total)` pairs,
mirroring the query's `ORDER BY total DESC`. -/
def byTotalDesc (a b : String × ℚ) : Prop :=
  b.2 ≤ a.2

instance : DecidableRel byTotalDesc :=
  fun a b => inferInstanceAs (Decidable (b.2 ≤ a.2))

instance : IsTotal (String × ℚ) byTotalDesc :=
  ⟨fun a b => le_total b.2 a.2⟩

instance : IsTrans (String × ℚ) byTotalDesc :=
  ⟨fun _ _ _ h1 h2 => le_trans h2 h1⟩

/-- Embedding of the `/sales/shift` SQL query (src/main.py lines 71-82):
`SELECT page, SUM(amount) AS total FROM sales WHERE team = %s AND
ts >= %s GROUP BY page ORDER BY total DESC`, over an explicit list of
table rows. -/
def salesAggregate (team : String) (start : ℤ) (rows : List SalesRow) : List (String × ℚ) :=
  let matching := rows.filter fun r => decide (r.team = team ∧ start ≤ r.ts)
  let pages := (matching.map fun r => r.page).dedup
  let totals := pages.map fun p =>
    (p, ((matching.filter fun r => decide (r.page = p)).map fun r => r.amount).sum)
  List.insertionSort byTotalDesc totals

/-- A row of the `attendance_clockins` table as returned by the
attendance query (src/main.py lines 100-109). -/
structure ClockRow where
  shift : String
  page_key : String
  user_name : String
  is_cover : Bool
  ph_ts : PHDateTime
  deriving DecidableEq, Repr

/-- An attendance entry as placed in the response: user name and the
ISO-rendered PH clock-in time. -/
structure Entry where
  name : String
  ph_ts : String
  deriving DecidableEq, Repr

/-- The two sequences of a `(shift, page_key)` attendance bucket. -/
structure Bucket where
  users : List Entry
  covers : List Entry
  deriving DecidableEq, Repr

/-- Left-pad a numeral to two digits. -/
def pad2 (n : Nat) : String :=
  if n < 10 then "0" ++ toString n else toString n

/-- Left-pad a numeral to four digits. -/
def pad4 (n : Nat) : String :=
  if n < 10 then "000" ++ toString n
  else if n < 100 then "00" ++ toString n
  else if n < 1000 then "0" ++ toString n
  else toString n

/-- ISO-8601 rendering of a date, mirroring Python `date.isoformat()`. -/
def isoDate (d : PHDate) : String :=
  pad4 d.year ++ "-" ++ pad2 d.month ++ "-" ++ pad2 d.day

/-- ISO-8601 rendering of a PH-zone instant with its fixed +08:00
offset, mirroring Python `datetime.isoformat()`. -/
def isoDT (t : PHDateTime) : String :=
  isoDate (dateOf t) ++ "T" ++ pad2 t.hour ++ ":" ++ pad2 t.minute ++ ":"
    ++ pad2 t.second ++ "+08:00"

/-- The response entry built from a clock-in row (src/main.py line 119). -/
def mkEntry (r : ClockRow) : Entry :=
  ⟨r.user_name, isoDT r.ph_ts⟩

/-- The nested attendance mapping: an insertion-ordered dictionary from
shift label to an insertion-ordered dictionary from page key to bucket,
mirroring the Python dict-of-dicts. -/
def Grouped : Type :=
  List (String × List (String × Bucket))

/-- Dictionary lookup on an insertion-ordered association list,
mirroring Python `d[k]` / `k in d`. -/
def dlookup {β : Type} : List (String × β) → String → Option β
  | [], _ => none
  | (k, v) :: t, key => if key = k then some v else dlookup t key

/-- Mirror of Python `d.setdefault(k, dflt)`: leave the dictionary
unchanged when the key is present, else append the key with the
default at the end (insertion order). -/
def dsetdefault {β : Type} (l : List (String × β)) (key : String) (dflt : β) :
    List (String × β) :=
  match dlookup l key with
  | some _ => l
  | none => l ++ [(key, dflt)]

/-- Mirror of Python in-place mutation `d[k] = f(d[k])` (no effect when
the key is absent). -/
def dupdate {β : Type} : List (String × β) → String → (β → β) → List (String × β)
  | [], _, _ => []
  | (k, v) :: t, key, f => if key = k then (k, f v) :: t else (k, v) :: dupdate t key f

/-- The branch of the row loop that appends the entry to `covers` when
the row is a cover and to `users` otherwise (src/main.py lines
120-123). -/
def appendEntry (r : ClockRow) (b : Bucket) : Bucket :=
  if r.is_cover then ⟨b.users, b.covers ++ [mkEntry r]⟩
  else ⟨b.users ++ [mkEntry r], b.covers⟩

/-- The body of the row loop of `attendance_today` (src/main.py lines
112-123): ensure the outer key for the row's shift, ensure the inner
bucket for its page key, then append the entry on the matching side. -/
def processRow (g : Grouped) (r : ClockRow) : Grouped :=
  let g1 := dsetdefault g r.shift []
  let g2 := dupdate g1 r.shift fun inner => dsetdefault inner r.page_key ⟨[], []⟩
  dupdate g2 r.shift fun inner => dupdate inner r.page_key (appendEntry r)

/-- The grouping of `attendance_today`: start from the three fixed shift
keys and fold the store rows in order (src/main.py lines 111-123). -/
def attendanceGroup (rows : List ClockRow) : Grouped :=
  rows.foldl processRow [("prime", []), ("midshift", []), ("closing", [])]

/-- The outer (or inner) key sequence of a dictionary, in insertion
order. -/
def dkeys {β : Type} (l : List (String × β)) : List String :=
  l.map Prod.fst

/-- The bucket stored for `(s, k)`, reading an absent level as empty. -/
def bucketAt (g : Grouped) (s k : String) : Bucket :=
  match dlookup g s with
  | none => ⟨[], []⟩
  | some inner => (dlookup inner k).getD ⟨[], []⟩

/-- JSON values, enough to state the response shapes. -/
inductive Json where
  | str : String → Json
  | num : ℚ → Json
  | bool : Bool → Json
  | arr : List Json → Json
  | obj : List (String × Json) → Json

/-- The key sequence of a JSON object (empty for non-objects). -/
def jsonKeys : Json → List String
  | .obj l => l.map Prod.fst
  | _ => []

/-- Field access on a JSON object. -/
def getField (j : Json) (key : String) : Option Json :=
  match j with
  | .obj l => dlookup l key
  | _ => none

/-- Linearization of a PH wall-clock instant onto the event-time axis of
`SalesRow.ts`; it is an order embedding on valid date-times, so the SQL
comparison `ts >= start` (performed on UTC instants) is represented
faithfully. -/
def phLin (t : PHDateTime) : ℤ :=
  ((((t.year * 13 + t.month) * 32 + t.day) * 24 + t.hour) * 60 + t.minute) * 60
    + t.second

/-- The HTTP endpoints of the FastAPI app. -/
inductive Endpoint where
  | health
  | teams
  | salesShift
  | attendanceToday
  deriving DecidableEq, Repr

/-- An incoming request: the optional `X-Internal-Key` header and the
optional `team` query parameter. -/
structure Request where
  x_internal_key : Option String
  team : Option String
  deriving DecidableEq, Repr

/-- A response: HTTP status, the number of store queries the handler
executed while producing it, and the JSON body. -/
structure Response where
  status : Nat
  storeQueries : Nat
  body : Json

/-- The process environment: the configured shared secret, the current
PH instant returned by `now_ph`, and the contents the two stores would
return to the handlers' queries. -/
structure Env where
  internalKey : String
  now : PHDateTime
  salesRows : List SalesRow
  clockRows : List ClockRow
  teamNames : List String

/-- Embedding of `require_internal_key` (src/main.py lines 31-33): the
request passes iff the header equals the configured secret; a missing
header never matches. -/
def require_internal_key (x_internal_key : Option String) (secret : String) : Bool :=
  decide (x_internal_key = some secret)

/-- JSON rendering of an attendance entry. -/
def jsonEntry (e : Entry) : Json :=
  .obj [("name", .str e.name), ("ph_ts", .str e.ph_ts)]

/-- JSON rendering of the nested attendance mapping. -/
def jsonGrouped (g : Grouped) : Json :=
  .obj (g.map fun si =>
    (si.1, .obj (si.2.map fun kb =>
      (kb.1, .obj [("users", .arr (kb.2.users.map jsonEntry)),
                   ("covers", .arr (kb.2.covers.map jsonEntry))]))))

/-- The standard FastAPI/HTTPException error body. -/
def errorBody (detail : String) : Json :=
  .obj [("detail", .str detail)]

/-- Embedding of the routing and the four handlers (src/main.py lines
52-125). FastAPI validates the declared required query parameter of
`/sales/shift` before the handler body runs (422 on absence); each
protected handler then checks the key header before touching a store. -/
def handle (env : Env) (ep : Endpoint) (req : Request) : Response :=
  match ep with
  | .health =>
      { status := 200, storeQueries := 0, body := .obj [("ok", .bool true)] }
  | .teams =>
      if require_internal_key req.x_internal_key env.internalKey then
        { status := 200, storeQueries := 1,
          body := .arr ((env.teamNames.dedup.insertionSort fun a b => a ≤ b).map .str) }
      else
        { status := 401, storeQueries := 0, body := errorBody "Unauthorized" }
  | .salesShift =>
      match req.team with
      | none =>
          { status := 422, storeQueries := 0, body := errorBody "Validation error" }
      | some team =>
          if require_internal_key req.x_internal_key env.internalKey then
            let start := shift_start_ph env.now
            let rows := salesAggregate team (phLin start) env.salesRows
            { status := 200, storeQueries := 1,
              body := .obj
                [("team", .str team),
                 ("shift_start_ph", .str (isoDT start)),
                 ("updated_ph", .str (isoDT env.now)),
                 ("rows", .arr (rows.map fun pr =>
                    .obj [("page", .str pr.1), ("total", .num pr.2)]))] }
          else
            { status := 401, storeQueries := 0, body := errorBody "Unauthorized" }
  | .attendanceToday =>
      if require_internal_key req.x_internal_key env.internalKey then
        let attDay := attendance_day_for env.now
        { status := 200, storeQueries := 1,
          body := .obj
            [("attendance_day", .str (isoDate attDay)),
             ("updated_ph", .str (isoDT env.now)),
             ("data", jsonGrouped (attendanceGroup env.clockRows))] }
      else
        { status := 401, storeQueries := 0, body := errorBody "Unauthorized" }

/-- A concrete environment used to instantiate the endpoint claims:
secret `secret`, clock at 2024-03-10 09:30:00+08:00, empty stores. -/
def env0 : Env :=
  ⟨"secret", ⟨2024, 3, 10, 9, 30, 0⟩, [], [], []⟩

/-! ## Claims about the pure time resolvers -/

/-- C1: for every zone-aware timestamp `t`, `shift_start_ph t` keeps the
local date, zeroes minutes and seconds, and picks hour 8 when
`8 ≤ h < 16`, hour 16 when `16 ≤ h < 24`, and hour 0 when `0 ≤ h < 8`;
hours exactly 8, 16, and 0 map to the shift starting at that hour. -/
theorem shift_start_correct (t : PHDateTime) (hh : t.hour < 24) :
    dateOf (shift_start_ph t) = dateOf t
    ∧ (shift_start_ph t).minute = 0
    ∧ (shift_start_ph t).second = 0
    ∧ (8 ≤ t.hour ∧ t.hour < 16 → (shift_start_ph t).hour = 8)
    ∧ (16 ≤ t.hour ∧ t.hour < 24 → (shift_start_ph t).hour = 16)
    ∧ (t.hour < 8 → (shift_start_ph t).hour = 0) := by
  unfold shift_start_ph
  split_ifs with h1 h2
  · exact ⟨rfl, rfl, rfl, fun _ => rfl, fun hc => absurd hc (by omega),
      fun hc => absurd hc (by omega)⟩
  · exact ⟨rfl, rfl, rfl, fun hc => absurd hc (by omega), fun _ => rfl,
      fun hc => absurd hc (by omega)⟩
  · exact ⟨rfl, rfl, rfl, fun hc => absurd hc (by omega),
      fun hc => absurd hc (by omega), fun _ => rfl⟩

/-- Witness for C1 at 2024-03-10 09:30:00+08:00, an hour in the prime
shift. -/
theorem shift_start_correct_witness :
    dateOf (shift_start_ph ⟨2024, 3, 10, 9, 30, 0⟩) = dateOf ⟨2024, 3, 10, 9, 30, 0⟩
    ∧ (shift_start_ph ⟨2024, 3, 10, 9, 30, 0⟩).hour = 8 :=
  ⟨(shift_start_correct ⟨2024, 3, 10, 9, 30, 0⟩ (by decide)).1,
   (shift_start_correct ⟨2024, 3, 10, 9, 30, 0⟩ (by decide)).2.2.2.1 (by decide)⟩

/-- C2: `attendance_day_for` returns the previous calendar date exactly
when the local time of day is strictly before 06:00 (21600 seconds),
and the same calendar date from 06:00:00 on; in particular 05:59:59 on
2024-03-10 yields 2024-03-09 and 06:00:00 yields 2024-03-10. -/
theorem attendance_day_correct (t : PHDateTime) (hm : t.minute < 60) (hs : t.second < 60) :
    (secondsOfDay t < 21600 → attendance_day_for t = predDate (dateOf t))
    ∧ (21600 ≤ secondsOfDay t → attendance_day_for t = dateOf t)
    ∧ attendance_day_for ⟨2024, 3, 10, 5, 59, 59⟩ = ⟨2024, 3, 9⟩
    ∧ attendance_day_for ⟨2024, 3, 10, 6, 0, 0⟩ = ⟨2024, 3, 10⟩ := by
  have hiff : timeLt t.hour t.minute t.second 6 0 0 = true ↔ secondsOfDay t < 21600 := by
    simp [timeLt, secondsOfDay]
    omega
  refine ⟨fun hsec => ?_, fun hsec => ?_, by decide, by decide⟩
  · simp [attendance_day_for, hiff.mpr hsec]
  · have hneg : ¬ timeLt t.hour t.minute t.second 6 0 0 = true := by
      rw [hiff]; omega
    simp [attendance_day_for, hneg]

/-- Witness for C2 at 2024-03-10 05:59:59+08:00. -/
theorem attendance_day_correct_witness :
    attendance_day_for ⟨2024, 3, 10, 5, 59, 59⟩ = predDate (dateOf ⟨2024, 3, 10, 5, 59, 59⟩) :=
  (attendance_day_correct ⟨2024, 3, 10, 5, 59, 59⟩ (by decide) (by decide)).1 (by decide)

/-- The 08:00 instant of any date is its own shift start. -/
lemma shift_start_at8 (y m d : Nat) :
    shift_start_ph ⟨y, m, d, 8, 0, 0⟩ = ⟨y, m, d, 8, 0, 0⟩ := by
  unfold shift_start_ph
  norm_num

/-- The 16:00 instant of any date is its own shift start. -/
lemma shift_start_at16 (y m d : Nat) :
    shift_start_ph ⟨y, m, d, 16, 0, 0⟩ = ⟨y, m, d, 16, 0, 0⟩ := by
  unfold shift_start_ph
  norm_num

/-- The midnight instant of any date is its own shift start. -/
lemma shift_start_at0 (y m d : Nat) :
    shift_start_ph ⟨y, m, d, 0, 0, 0⟩ = ⟨y, m, d, 0, 0, 0⟩ := by
  unfold shift_start_ph
  norm_num

/-- C10: `shift_start_ph` is idempotent, keeps the local date, never
moves forward (on the shared date its time of day is at most the
input's), and the input lies strictly less than eight hours after its
shift start. -/
theorem shift_start_idempotent (t : PHDateTime) (hh : t.hour < 24)
    (hm : t.minute < 60) (hs : t.second < 60) :
    shift_start_ph (shift_start_ph t) = shift_start_ph t
    ∧ dateOf (shift_start_ph t) = dateOf t
    ∧ secondsOfDay (shift_start_ph t) ≤ secondsOfDay t
    ∧ secondsOfDay t < secondsOfDay (shift_start_ph t) + 8 * 3600 := by
  by_cases h1 : 8 ≤ t.hour ∧ t.hour < 16
  · have e : shift_start_ph t = ⟨t.year, t.month, t.day, 8, 0, 0⟩ := by
      unfold shift_start_ph; rw [if_pos h1]
    refine ⟨by rw [e, shift_start_at8], by rw [e]; rfl, ?_, ?_⟩
    · rw [e]; simp only [secondsOfDay]; omega
    · rw [e]; simp only [secondsOfDay]; omega
  · by_cases h2 : 16 ≤ t.hour ∧ t.hour < 24
    · have e : shift_start_ph t = ⟨t.year, t.month, t.day, 16, 0, 0⟩ := by
        unfold shift_start_ph; rw [if_neg h1, if_pos h2]
      refine ⟨by rw [e, shift_start_at16], by rw [e]; rfl, ?_, ?_⟩
      · rw [e]; simp only [secondsOfDay]; omega
      · rw [e]; simp only [secondsOfDay]; omega
    · have e : shift_start_ph t = ⟨t.year, t.month, t.day, 0, 0, 0⟩ := by
        unfold shift_start_ph; rw [if_neg h1, if_neg h2]
      refine ⟨by rw [e, shift_start_at0], by rw [e]; rfl, ?_, ?_⟩
      · rw [e]; simp only [secondsOfDay]; omega
      · rw [e]; simp only [secondsOfDay]; omega

/-! ## Dictionary lemmas for the attendance grouping -/

/-- Lookup distributes over append, preferring the left list. -/
lemma dlookup_append {β : Type} (l1 l2 : List (String × β)) (key : String) :
    dlookup (l1 ++ l2) key =
      match dlookup l1 key with
      | some v => some v
      | none => dlookup l2 key := by
  induction l1 with
  | nil => rfl
  | cons p t ih =>
    obtain ⟨a, b⟩ := p
    by_cases h : key = a
    · simp [dlookup, h]
    · simp [dlookup, h, ih]

/-- Lookup after `dsetdefault`. -/
lemma dlookup_dsetdefault {β : Type} (l : List (String × β)) (k : String) (d : β)
    (k' : String) :
    dlookup (dsetdefault l k d) k' =
      if k' = k then some ((dlookup l k).getD d) else dlookup l k' := by
  unfold dsetdefault
  cases h : dlookup l k with
  | some v =>
    by_cases hk : k' = k
    · subst hk; simp [h]
    · simp [hk]
  | none =>
    rw [dlookup_append]
    by_cases hk : k' = k
    · subst hk
      rw [if_pos rfl, h]
      simp [dlookup]
    · rw [if_neg hk]
      cases h2 : dlookup l k' with
      | some v => rfl
      | none => simp [dlookup, hk]

/-- Lookup after `dupdate`. -/
lemma dlookup_dupdate {β : Type} (l : List (String × β)) (k : String) (f : β → β)
    (k' : String) :
    dlookup (dupdate l k f) k' =
      if k' = k then (dlookup l k).map f else dlookup l k' := by
  induction l with
  | nil => by_cases hk : k' = k <;> simp [dupdate, dlookup, hk]
  | cons p t ih =>
    obtain ⟨a, b⟩ := p
    by_cases hak : k = a
    · subst hak
      by_cases hk : k' = k
      · subst hk; simp [dupdate, dlookup]
      · simp [dupdate, dlookup, hk]
    · by_cases hk' : k' = a
      · subst hk'
        have : ¬ k' = k := fun h => hak h.symm
        simp [dupdate, dlookup, hak, this]
      · simp [dupdate, dlookup, hak, hk', ih]

/-- Key sequences are untouched by `dupdate`. -/
lemma dkeys_dupdate {β : Type} (l : List (String × β)) (k : String) (f : β → β) :
    dkeys (dupdate l k f) = dkeys l := by
  induction l with
  | nil => rfl
  | cons p t ih =>
    obtain ⟨a, b⟩ := p
    simp only [dkeys] at ih
    by_cases h : k = a
    · simp [dupdate, dkeys, h]
    · simp [dupdate, dkeys, h, ih]

/-- Key membership coincides with a successful lookup. -/
lemma mem_dkeys {β : Type} (l : List (String × β)) (k : String) :
    k ∈ dkeys l ↔ (dlookup l k).isSome := by
  induction l with
  | nil => simp [dkeys, dlookup]
  | cons p t ih =>
    obtain ⟨a, b⟩ := p
    simp only [dkeys] at ih
    by_cases h : k = a
    · simp [dkeys, dlookup, h]
    · simp [dkeys, dlookup, h, ih]

/-- The bucket read through the two `getD`-defaulted lookups. -/
lemma bucketAt_eq_getD (g : Grouped) (s k : String) :
    bucketAt g s k = (dlookup ((dlookup g s).getD []) k).getD ⟨[], []⟩ := by
  unfold bucketAt
  cases dlookup g s <;> rfl

/-- Reading the inner dictionary after the setdefault-then-append step
of the row loop. -/
lemma inner_step (inner : List (String × Bucket)) (pk : String) (fapp : Bucket → Bucket)
    (k : String) :
    (dlookup (dupdate (dsetdefault inner pk ⟨[], []⟩) pk fapp) k).getD ⟨[], []⟩ =
      if k = pk then fapp ((dlookup inner pk).getD ⟨[], []⟩)
      else (dlookup inner k).getD ⟨[], []⟩ := by
  rw [dlookup_dupdate]
  by_cases hk : k = pk
  · subst hk
    rw [if_pos rfl, if_pos rfl, dlookup_dsetdefault, if_pos rfl]
    rfl
  · rw [if_neg hk, if_neg hk, dlookup_dsetdefault, if_neg hk]

/-- Outer lookup after one row-loop iteration. -/
lemma dlookup_processRow (g : Grouped) (r : ClockRow) (s : String) :
    dlookup (processRow g r) s =
      if s = r.shift then
        some (dupdate (dsetdefault ((dlookup g r.shift).getD []) r.page_key ⟨[], []⟩)
          r.page_key (appendEntry r))
      else dlookup g s := by
  by_cases hs : s = r.shift
  · subst hs
    simp only [processRow]
    rw [dlookup_dupdate, if_pos rfl, dlookup_dupdate, if_pos rfl, dlookup_dsetdefault,
      if_pos rfl]
    simp
  · simp only [processRow]
    rw [dlookup_dupdate, if_neg hs, dlookup_dupdate, if_neg hs, dlookup_dsetdefault,
      if_neg hs, if_neg hs]

/-- One row-loop iteration touches exactly the row's bucket, appending
the entry on the side selected by the covering flag. -/
lemma bucketAt_processRow (g : Grouped) (r : ClockRow) (s k : String) :
    bucketAt (processRow g r) s k =
      if s = r.shift ∧ k = r.page_key then appendEntry r (bucketAt g s k)
      else bucketAt g s k := by
  rw [bucketAt_eq_getD, bucketAt_eq_getD, dlookup_processRow]
  by_cases hs : s = r.shift
  · rw [if_pos hs]
    subst hs
    rw [Option.getD_some, inner_step]
    by_cases hk : k = r.page_key
    · subst hk
      rw [if_pos rfl, if_pos ⟨rfl, rfl⟩]
    · rw [if_neg hk, if_neg fun hc => hk hc.2]
  · rw [if_neg hs, if_neg fun hc => hs hc.1]

/-- Folding the row loop appends, per bucket, exactly the entries of
the rows that target it, in input order and on the side selected by
the covering flag. -/
lemma bucketAt_foldl (rows : List ClockRow) (g : Grouped) (s k : String) :
    bucketAt (rows.foldl processRow g) s k =
      ⟨(bucketAt g s k).users
        ++ (rows.filter fun r =>
            decide (r.shift = s ∧ r.page_key = k ∧ r.is_cover = false)).map mkEntry,
       (bucketAt g s k).covers
        ++ (rows.filter fun r =>
            decide (r.shift = s ∧ r.page_key = k ∧ r.is_cover = true)).map mkEntry⟩ := by
  induction rows generalizing g with
  | nil =>
    rcases hb : bucketAt g s k with ⟨u, c⟩
    simp [hb]
  | cons r rows ih =>
    simp only [List.foldl_cons, List.filter_cons]
    rw [ih, bucketAt_processRow]
    by_cases hs : s = r.shift ∧ k = r.page_key
    · rw [if_pos hs]
      obtain ⟨hs1, hs2⟩ := hs
      subst hs1
      subst hs2
      cases hc : r.is_cover
      · simp [appendEntry, hc]
      · simp [appendEntry, hc]
    · rw [if_neg hs]
      have h1 : ¬ (r.shift = s ∧ r.page_key = k ∧ r.is_cover = false) :=
        fun hc => hs ⟨hc.1.symm, hc.2.1.symm⟩
      have h2 : ¬ (r.shift = s ∧ r.page_key = k ∧ r.is_cover = true) :=
        fun hc => hs ⟨hc.1.symm, hc.2.1.symm⟩
      simp [h1, h2]

/-- The pre-seeded mapping has only empty buckets. -/
lemma bucketAt_init (s k : String) :
    bucketAt [("prime", ([] : List (String × Bucket))), ("midshift", []), ("closing", [])]
      s k = ⟨[], []⟩ := by
  rw [bucketAt_eq_getD]
  cases h : dlookup [("prime", ([] : List (String × Bucket))), ("midshift", []), ("closing", [])] s with
  | none => rfl
  | some inner =>
    have hi : inner = [] := by
      simp only [dlookup] at h
      split_ifs at h <;> simp_all
    rw [hi]
    rfl

/-- Key effect of one row-loop iteration: the row's shift label is
appended to the outer keys when new, and nothing else changes. -/
lemma dkeys_processRow (g : Grouped) (r : ClockRow) :
    dkeys (processRow g r) =
      match dlookup g r.shift with
      | some _ => dkeys g
      | none => dkeys g ++ [r.shift] := by
  simp only [processRow]
  rw [dkeys_dupdate, dkeys_dupdate]
  unfold dsetdefault
  cases h : dlookup g r.shift with
  | some v => rfl
  | none => simp [dkeys]

/-- Folding the row loop never removes an outer key. -/
lemma dkeys_foldl_mono (rows : List ClockRow) (g : Grouped) (key : String)
    (h : key ∈ dkeys g) :
    key ∈ dkeys (rows.foldl processRow g) := by
  induction rows generalizing g with
  | nil => exact h
  | cons r rows ih =>
    simp only [List.foldl_cons]
    apply ih
    rw [dkeys_processRow]
    cases dlookup g r.shift with
    | some v => exact h
    | none => simp [h]

/-- Every outer key after the fold was an initial key or a row's shift
label. -/
lemma dkeys_foldl_subset (rows : List ClockRow) (g : Grouped) (key : String)
    (h : key ∈ dkeys (rows.foldl processRow g)) :
    key ∈ dkeys g ∨ key ∈ rows.map ClockRow.shift := by
  induction rows generalizing g with
  | nil => exact Or.inl h
  | cons r rows ih =>
    simp only [List.foldl_cons] at h
    rcases ih (processRow g r) h with hg | hr
    · rw [dkeys_processRow] at hg
      cases h2 : dlookup g r.shift with
      | some v => rw [h2] at hg; exact Or.inl hg
      | none =>
        rw [h2] at hg
        rcases List.mem_append.mp hg with h3 | h3
        · exact Or.inl h3
        · right
          simp at h3
          simp [h3]
    · right
      simp [hr]

/-- When every row's shift is already an outer key, the fold leaves the
outer keys unchanged. -/
lemma dkeys_foldl_known (rows : List ClockRow) (g : Grouped)
    (h : ∀ r ∈ rows, r.shift ∈ dkeys g) :
    dkeys (rows.foldl processRow g) = dkeys g := by
  induction rows generalizing g with
  | nil => rfl
  | cons r rows ih =>
    simp only [List.foldl_cons]
    have hk : dkeys (processRow g r) = dkeys g := by
      rw [dkeys_processRow]
      have hmem := h r (by simp)
      rw [mem_dkeys] at hmem
      cases h2 : dlookup g r.shift with
      | some v => rfl
      | none => rw [h2] at hmem; simp at hmem
    exact (ih (processRow g r)
      (fun r' hr' => by rw [hk]; exact h r' (List.mem_cons_of_mem _ hr'))).trans hk

/-- Witness for C10 at 2024-03-10 23:59:59+08:00, the last second of the
midshift window. -/
theorem shift_start_idempotent_witness :
    shift_start_ph (shift_start_ph ⟨2024, 3, 10, 23, 59, 59⟩)
      = shift_start_ph ⟨2024, 3, 10, 23, 59, 59⟩
    ∧ secondsOfDay ⟨2024, 3, 10, 23, 59, 59⟩
      < secondsOfDay (shift_start_ph ⟨2024, 3, 10, 23, 59, 59⟩) + 8 * 3600 :=
  ⟨(shift_start_idempotent ⟨2024, 3, 10, 23, 59, 59⟩ (by decide) (by decide) (by decide)).1,
   (shift_start_idempotent ⟨2024, 3, 10, 23, 59, 59⟩ (by decide) (by decide) (by decide)).2.2.2⟩

/-! ## Claims about the attendance grouping -/

/-- C3 (amended): the outer mapping of the attendance grouping always
contains the keys `prime`, `midshift`, and `closing`, every outer key is
one of those three or the shift label of some input row, and when every
row carries one of the three known labels the outer keys are exactly
`prime`, `midshift`, `closing`. -/
theorem attendance_keys (rows : List ClockRow) :
    "prime" ∈ dkeys (attendanceGroup rows)
    ∧ "midshift" ∈ dkeys (attendanceGroup rows)
    ∧ "closing" ∈ dkeys (attendanceGroup rows)
    ∧ (∀ key ∈ dkeys (attendanceGroup rows),
        key = "prime" ∨ key = "midshift" ∨ key = "closing"
          ∨ key ∈ rows.map ClockRow.shift)
    ∧ ((∀ r ∈ rows, r.shift = "prime" ∨ r.shift = "midshift" ∨ r.shift = "closing") →
        dkeys (attendanceGroup rows) = ["prime", "midshift", "closing"]) := by
  unfold attendanceGroup
  refine ⟨dkeys_foldl_mono _ _ _ (by decide), dkeys_foldl_mono _ _ _ (by decide),
    dkeys_foldl_mono _ _ _ (by decide), ?_, ?_⟩
  · intro key hk
    rcases dkeys_foldl_subset _ _ _ hk with hg | hr
    · simp [dkeys] at hg
      tauto
    · tauto
  · intro hall
    rw [dkeys_foldl_known]
    · rfl
    · intro r hr
      rcases hall r hr with h | h | h <;> simp [dkeys, h]

/-- Witness for C3 (amended): a single prime-shift row leaves the outer
keys exactly at the three known labels. -/
theorem attendance_keys_witness :
    dkeys (attendanceGroup [⟨"prime", "L1", "Ana", false, ⟨2024, 3, 10, 8, 5, 0⟩⟩])
      = ["prime", "midshift", "closing"] :=
  (attendance_keys [⟨"prime", "L1", "Ana", false, ⟨2024, 3, 10, 8, 5, 0⟩⟩]).2.2.2.2
    (by decide)

/-- Counterexample to C3 as stated: a row whose shift label is `other`
(not one of the three known labels) makes `other` appear as a fourth
outer key, so the outer mapping does not contain exactly the keys
`prime`, `midshift`, `closing`. -/
theorem attendance_keys_cex :
    "other" ∈ dkeys (attendanceGroup [⟨"other", "L1", "Ana", false, ⟨2024, 3, 10, 8, 5, 0⟩⟩])
    ∧ dkeys (attendanceGroup [⟨"other", "L1", "Ana", false, ⟨2024, 3, 10, 8, 5, 0⟩⟩])
      ≠ ["prime", "midshift", "closing"] := by
  decide

/-- C5: for every list of clock-in rows processed in store order, the
`users` sequence of the `(s, k)` bucket consists of exactly the entries
of the non-covering rows targeting `(s, k)`, in input order, and the
`covers` sequence of exactly the covering ones, in input order — so
each row lands in exactly one sequence of exactly its own bucket and
the store-supplied relative order is preserved. -/
theorem attendance_bucket_spec (rows : List ClockRow) (s k : String) :
    (bucketAt (attendanceGroup rows) s k).users
      = ((rows.filter fun r =>
          decide (r.shift = s ∧ r.page_key = k ∧ r.is_cover = false)).map mkEntry)
    ∧ (bucketAt (attendanceGroup rows) s k).covers
      = ((rows.filter fun r =>
          decide (r.shift = s ∧ r.page_key = k ∧ r.is_cover = true)).map mkEntry) := by
  unfold attendanceGroup
  rw [bucketAt_foldl, bucketAt_init]
  exact ⟨rfl, rfl⟩

/-! ## Claims about the sales aggregation -/

/-- Filtering the window predicate and then a page equals filtering the
conjunction, mirroring how `WHERE` and `GROUP BY` combine. -/
lemma filter_filter_page (team : String) (start : ℤ) (p : String) (rows : List SalesRow) :
    ((rows.filter fun r => decide (r.team = team ∧ start ≤ r.ts)).filter fun r =>
        decide (r.page = p))
      = rows.filter fun r => decide (r.team = team ∧ start ≤ r.ts ∧ r.page = p) := by
  rw [List.filter_filter]
  apply List.filter_congr
  intro r _
  by_cases h1 : r.team = team <;> by_cases h2 : start ≤ r.ts <;> by_cases h3 : r.page = p <;>
    simp [h1, h2, h3]

/-- The aggregation is a permutation of the unsorted GROUP BY output. -/
lemma salesAggregate_perm (team : String) (start : ℤ) (rows : List SalesRow) :
    List.Perm (salesAggregate team start rows)
      ((((rows.filter fun r => decide (r.team = team ∧ start ≤ r.ts)).map fun r =>
          r.page).dedup).map fun p =>
        (p, (((rows.filter fun r => decide (r.team = team ∧ start ≤ r.ts)).filter fun r =>
            decide (r.page = p)).map fun r => r.amount).sum)) := by
  simp only [salesAggregate]
  exact List.perm_insertionSort _ _

/-- The category column of the aggregation is a permutation of the
deduplicated pages of the matching rows. -/
lemma salesAggregate_keys_perm (team : String) (start : ℤ) (rows : List SalesRow) :
    List.Perm ((salesAggregate team start rows).map Prod.fst)
      (((rows.filter fun r => decide (r.team = team ∧ start ≤ r.ts)).map fun r =>
        r.page).dedup) := by
  have h := (salesAggregate_perm team start rows).map Prod.fst
  rw [List.map_map] at h
  have hid : (Prod.fst ∘ fun p : String =>
      (p, (((rows.filter fun r => decide (r.team = team ∧ start ≤ r.ts)).filter fun r =>
          decide (r.page = p)).map fun r => r.amount).sum)) = fun p : String => p := rfl
  rw [hid, List.map_id'] at h
  exact h

/-- C4: the sales aggregation reports exactly the categories of the
transactions for the team at or after the boundary, each with the sum
of the matching amounts, ordered by total descending; in particular
rows A:10, A:5, B:7 yield `[(A, 15), (B, 7)]`. -/
theorem sales_aggregate_spec (team : String) (start : ℤ) (rows : List SalesRow) :
    (∀ p : String, p ∈ (salesAggregate team start rows).map Prod.fst ↔
        ∃ r ∈ rows, r.team = team ∧ start ≤ r.ts ∧ r.page = p)
    ∧ (∀ (p : String) (total : ℚ), (p, total) ∈ salesAggregate team start rows →
        total = ((rows.filter fun r =>
            decide (r.team = team ∧ start ≤ r.ts ∧ r.page = p)).map fun r =>
          r.amount).sum)
    ∧ (salesAggregate team start rows).Sorted byTotalDesc
    ∧ salesAggregate "X" 0 [⟨"X", "A", 10, 1⟩, ⟨"X", "A", 5, 2⟩, ⟨"X", "B", 7, 3⟩]
      = [("A", 15), ("B", 7)] := by
  refine ⟨?_, ?_, ?_, ?_⟩
  · intro p
    rw [(salesAggregate_keys_perm team start rows).mem_iff, List.mem_dedup]
    simp only [List.mem_map, List.mem_filter, decide_eq_true_eq]
    constructor
    · rintro ⟨r, ⟨hr, hc1, hc2⟩, hp⟩
      exact ⟨r, hr, hc1, hc2, hp⟩
    · rintro ⟨r, hr, h1, h2, h3⟩
      exact ⟨r, ⟨hr, h1, h2⟩, h3⟩
  · intro p total hmem
    have h1 := (salesAggregate_perm team start rows).subset hmem
    obtain ⟨q, hq, he⟩ := List.mem_map.mp h1
    injection he with he1 he2
    subst he1
    rw [← he2, filter_filter_page]
  · simp only [salesAggregate]
    exact List.sorted_insertionSort _ _
  · simp +decide [salesAggregate, List.dedup, List.pwFilter, List.insertionSort,
      List.orderedInsert, byTotalDesc, List.filter_cons, List.sum_cons]
    norm_num

/-- Witness for C4: category A is reported for the concrete scenario
rows. -/
theorem sales_aggregate_spec_witness :
    ("A" : String) ∈ (salesAggregate "X" 0
      [⟨"X", "A", 10, 1⟩, ⟨"X", "A", 5, 2⟩, ⟨"X", "B", 7, 3⟩]).map Prod.fst :=
  ((sales_aggregate_spec "X" 0
      [⟨"X", "A", 10, 1⟩, ⟨"X", "A", 5, 2⟩, ⟨"X", "B", 7, 3⟩]).1 "A").mpr
    ⟨⟨"X", "A", 10, 1⟩, by decide, rfl, by decide, rfl⟩

/-- C8: when every stored amount is non-negative, no reported total is
negative (totals are plain rationals, so none is missing), and no
category appears in more than one pair of the result. -/
theorem sales_invariants (team : String) (start : ℤ) (rows : List SalesRow)
    (hpos : ∀ r ∈ rows, 0 ≤ r.amount) :
    (∀ (p : String) (total : ℚ), (p, total) ∈ salesAggregate team start rows → 0 ≤ total)
    ∧ ((salesAggregate team start rows).map Prod.fst).Nodup := by
  constructor
  · intro p total hmem
    have h1 := (salesAggregate_perm team start rows).subset hmem
    obtain ⟨q, hq, he⟩ := List.mem_map.mp h1
    injection he with he1 he2
    rw [← he2]
    apply List.sum_nonneg
    intro x hx
    obtain ⟨r, hr, hxe⟩ := List.mem_map.mp hx
    rw [← hxe]
    exact hpos r (List.mem_filter.mp (List.mem_filter.mp hr).1).1
  · exact (salesAggregate_keys_perm team start rows).nodup_iff.mpr (List.nodup_dedup _)

/-- Witness for C8 on two concrete non-negative rows. -/
theorem sales_invariants_witness :
    (∀ (p : String) (total : ℚ),
      (p, total) ∈ salesAggregate "X" 0 [⟨"X", "A", 10, 1⟩, ⟨"X", "B", 7, 3⟩] → 0 ≤ total)
    ∧ ((salesAggregate "X" 0 [⟨"X", "A", 10, 1⟩, ⟨"X", "B", 7, 3⟩]).map Prod.fst).Nodup :=
  sales_invariants "X" 0 [⟨"X", "A", 10, 1⟩, ⟨"X", "B", 7, 3⟩] (by decide)

/-! ## Claims about the HTTP surface -/

/-- C6 (amended): the protected endpoints `/teams`, `/attendance/today`,
and — whenever its required `team` parameter is present — `/sales/shift`
answer 401 without executing any store query when the key header is
missing or mismatched; `/health` performs no key check at all. -/
theorem protected_endpoints_unauthorized (env : Env) (req : Request)
    (hbad : req.x_internal_key ≠ some env.internalKey) :
    ((handle env .teams req).status = 401 ∧ (handle env .teams req).storeQueries = 0)
    ∧ ((handle env .attendanceToday req).status = 401
        ∧ (handle env .attendanceToday req).storeQueries = 0)
    ∧ (∀ team : String, req.team = some team →
        (handle env .salesShift req).status = 401
        ∧ (handle env .salesShift req).storeQueries = 0) := by
  have hkey : require_internal_key req.x_internal_key env.internalKey = false := by
    simp [require_internal_key, hbad]
  refine ⟨?_, ?_, ?_⟩
  · constructor <;> simp [handle, hkey]
  · constructor <;> simp [handle, hkey]
  · intro team hteam
    constructor <;> simp [handle, hteam, hkey]

/-- Witness for C6 (amended): a keyless request to `/teams` and a
wrong-keyed request to `/sales/shift` both get 401. -/
theorem protected_endpoints_unauthorized_witness :
    (handle env0 .teams ⟨none, none⟩).status = 401
    ∧ (handle env0 .salesShift ⟨some "bad", some "X"⟩).status = 401 :=
  ⟨(protected_endpoints_unauthorized env0 ⟨none, none⟩ (by decide)).1.1,
   ((protected_endpoints_unauthorized env0 ⟨some "bad", some "X"⟩ (by decide)).2.2 "X" rfl).1⟩

/-- Counterexample to C6 as stated: `/health` performs no key check, so
a request with no key header is answered 200, not 401. -/
theorem health_unauthenticated_cex :
    (handle env0 .health ⟨none, none⟩).status = 200
    ∧ (handle env0 .health ⟨none, none⟩).status ≠ 401 := by
  constructor <;> simp [handle]

/-- C9: a request to `/sales/shift` with a valid key but no `team`
parameter is rejected by parameter validation with a client error (422)
and zero store queries. -/
theorem missing_team_client_error (env : Env) (req : Request)
    (hkey : req.x_internal_key = some env.internalKey) (hteam : req.team = none) :
    (handle env .salesShift req).status = 422
    ∧ 400 ≤ (handle env .salesShift req).status
    ∧ (handle env .salesShift req).status < 500
    ∧ (handle env .salesShift req).storeQueries = 0 := by
  refine ⟨?_, ?_, ?_, ?_⟩ <;> simp [handle, hteam]

/-- Witness for C9 at the concrete environment. -/
theorem missing_team_client_error_witness :
    (handle env0 .salesShift ⟨some "secret", none⟩).status = 422
    ∧ (handle env0 .salesShift ⟨some "secret", none⟩).storeQueries = 0 :=
  ⟨(missing_team_client_error env0 ⟨some "secret", none⟩ rfl rfl).1,
   (missing_team_client_error env0 ⟨some "secret", none⟩ rfl rfl).2.2.2⟩

/-- C7 (amended): a successful `/sales/shift` response is an object with
keys exactly `team`, `shift_start_ph`, `updated_ph`, `rows`, the two
timestamp fields are strings, and every element of `rows` is an object
with keys exactly `page` and `total`. -/
theorem sales_shift_response_shape (env : Env) (req : Request) (team : String)
    (hkey : req.x_internal_key = some env.internalKey) (hteam : req.team = some team) :
    jsonKeys (handle env .salesShift req).body
      = ["team", "shift_start_ph", "updated_ph", "rows"]
    ∧ (∃ s, getField (handle env .salesShift req).body "shift_start_ph"
        = some (Json.str s))
    ∧ (∃ s, getField (handle env .salesShift req).body "updated_ph" = some (Json.str s))
    ∧ (∃ l, getField (handle env .salesShift req).body "rows" = some (Json.arr l)
        ∧ ∀ j ∈ l, jsonKeys j = ["page", "total"]) := by
  have hk : require_internal_key req.x_internal_key env.internalKey = true := by
    simp [require_internal_key, hkey]
  refine ⟨?_, ⟨isoDT (shift_start_ph env.now), ?_⟩, ⟨isoDT env.now, ?_⟩,
    ⟨(salesAggregate team (phLin (shift_start_ph env.now)) env.salesRows).map fun pr =>
      Json.obj [("page", Json.str pr.1), ("total", Json.num pr.2)], ?_, ?_⟩⟩
  · simp [handle, hteam, hk, jsonKeys]
  · simp [handle, hteam, hk, getField, dlookup]
  · simp [handle, hteam, hk, getField, dlookup]
  · simp [handle, hteam, hk, getField, dlookup]
  · intro j hj
    obtain ⟨pr, _, he⟩ := List.mem_map.mp hj
    rw [← he]
    rfl

/-- Witness for C7 (amended) at the concrete environment. -/
theorem sales_shift_response_shape_witness :
    jsonKeys (handle env0 .salesShift ⟨some "secret", some "X"⟩).body
      = ["team", "shift_start_ph", "updated_ph", "rows"] :=
  (sales_shift_response_shape env0 ⟨some "secret", some "X"⟩ "X" rfl rfl).1

/-- Counterexample to C7 as stated: the successful response keys are
`team`, `shift_start_ph`, `updated_ph`, `rows` — the keys `shift_start`
and `updated` named by the claim do not occur. -/
theorem sales_shift_response_shape_cex :
    jsonKeys (handle env0 .salesShift ⟨some "secret", some "X"⟩).body
      = ["team", "shift_start_ph", "updated_ph", "rows"]
    ∧ "shift_start" ∉ jsonKeys (handle env0 .salesShift ⟨some "secret", some "X"⟩).body
    ∧ "updated" ∉ jsonKeys (handle env0 .salesShift ⟨some "secret", some "X"⟩).body := by
  refine ⟨?_, ?_, ?_⟩ <;> simp [handle, env0, jsonKeys, require_internal_key]

end Dashboard
